import Mathlib

/-!
Verification of the amount codec in `xrpl/binary_codec/types/amount.py`.

The Python module serializes and deserializes XRPL amount fields: native XRP
amounts (decimal digit strings, 8-byte encoding) and issued-currency amounts
(exact decimal value plus currency and issuer, 48-byte encoding).

Shallow embedding conventions:
* Python `Decimal` objects are embedded as `PyDecimal`, mirroring
  `Decimal.as_tuple()`: a sign flag (`true` = negative, i.e. `sign = 1`),
  the list of coefficient digits (no leading zeros; `[0]` for zero), and an
  integer exponent.  `Decimal(string)` construction is embedded by
  `pyDecimalOfString`, covering the numeric-string grammar
  `[sign] (digits [. digits] | . digits) [(e|E) [sign] digits]` used by the
  claims (surrounding whitespace is not modelled; no claim input has any).
* The module-level decimal context `Context(prec=16, Emax=80, Emin=-96)` with
  its default traps (`Overflow` trapped, `Underflow`/`Subnormal` not trapped,
  rounding `ROUND_HALF_EVEN`) is embedded in `ctxMul`, the only context
  arithmetic the module performs (multiplication).
* Python exceptions are split into the codec's typed exception
  (`PyErr.codec`, i.e. `XRPLBinaryCodecException`) and untyped exceptions
  (`PyErr.valueError` from `int(...)`, `PyErr.invalidOperation` from
  `Decimal(...)` on a malformed string, `PyErr.decimalOverflow` from the
  decimal context's trapped `Overflow` signal).
* `bytes` values are `List Nat` with entries < 256, big-endian as in the
  source (`to_bytes(8, byteorder="big")` is `bytes8`).
* Bounded Python loops (`while` in `_serialize_issued_currency_value`) are
  embedded with an explicit fuel argument that provably dominates the number
  of iterations; unfolding lemmas below restate them exactly as the source's
  loop bodies.
-/

/-- Python exceptions raised by the code paths under verification.
`codec` is the typed `XRPLBinaryCodecException`; the others are untyped
built-in exceptions that escape the codec. -/
inductive PyErr where
  | codec (msg : String)
  | valueError (msg : String)
  | invalidOperation (msg : String)
  | decimalOverflow (msg : String)
deriving DecidableEq, Repr

/-- Embeds `Decimal.as_tuple()`: sign (`true` = negative), coefficient digits
(most significant first, no leading zeros, `[0]` for zero), exponent. -/
structure PyDecimal where
  sign : Bool
  digits : List Nat
  exp : Int
deriving DecidableEq, Repr

/-- Digit list of a natural number, most significant first (`[0]` for 0).
Fuel-based so that it reduces in the kernel; `natDigits_eq` below gives the
usual recursion. -/
def natDigitsAux : Nat → Nat → List Nat
  | 0, _ => []
  | f + 1, n => if n < 10 then [n] else natDigitsAux f (n / 10) ++ [n % 10]

def natDigits (n : Nat) : List Nat := natDigitsAux (n + 1) n

/-- The number denoted by a digit list (most significant first). -/
def natOfDigits (l : List Nat) : Nat := l.foldl (fun a d => a * 10 + d) 0

/-- Embeds `int.to_bytes(8, byteorder="big")` for values below 2^64. -/
def bytes8 (n : Nat) : List Nat :=
  [n / 2 ^ 56 % 256, n / 2 ^ 48 % 256, n / 2 ^ 40 % 256, n / 2 ^ 32 % 256,
   n / 2 ^ 24 % 256, n / 2 ^ 16 % 256, n / 2 ^ 8 % 256, n % 256]

/-- Embeds `int.from_bytes(buffer, byteorder="big")`. -/
def bytesToNat (l : List Nat) : Nat := l.foldl (fun a b => a * 256 + b) 0

/-- Division rounding half to even (the decimal context's `ROUND_HALF_EVEN`),
used when a context operation must drop digits. -/
def halfEvenDiv (a b : Nat) : Nat :=
  let q := a / b
  let r := a % b
  if 2 * r < b then q
  else if 2 * r > b then q + 1
  else if q % 2 = 0 then q else q + 1

/-- Value of a decimal digit character. -/
def charToDigit (c : Char) : Nat := c.toNat - 48

/-- Decimal digit character of a digit value (digits are always < 10 where
this is used). -/
def charOfDigit : Nat → Char
  | 0 => '0' | 1 => '1' | 2 => '2' | 3 => '3' | 4 => '4'
  | 5 => '5' | 6 => '6' | 7 => '7' | 8 => '8' | 9 => '9'
  | _ => '0'

/-- Embeds `str.rstrip(c)`: remove all trailing occurrences of the character `c`. -/
def strRstrip (s : String) (c : Char) : String :=
  ⟨(s.toList.reverse.dropWhile (· = c)).reverse⟩

/-- Embeds `_contains_decimal` (amount.py line 41): despite its name it returns
`True` when the string contains NO decimal point
(`string.find(".") == -1`). -/
def _contains_decimal (s : String) : Bool := !(s.toList.contains '.')

/-- Optional leading sign of a Python numeric string; returns
(`true` iff a `'-'` was consumed, remaining characters). -/
def parseSign : List Char → Bool × List Char
  | [] => (false, [])
  | c :: r =>
    if c = '-' then (true, r)
    else if c = '+' then (false, r)
    else (false, c :: r)

/-- Longest prefix of decimal digits, as digit values, plus the rest. -/
def takeDigits : List Char → List Nat × List Char
  | [] => ([], [])
  | c :: r =>
    if c.isDigit then
      let (ds, rest) := takeDigits r
      (charToDigit c :: ds, rest)
    else ([], c :: r)

/-- Embeds `Decimal(string)` on the numeric-string grammar
`[sign] (digits [. digits] | . digits) [(e|E) [sign] digits]`;
`none` embeds the `decimal.InvalidOperation` raised on a malformed string.
The coefficient is the integer formed by the integral and fractional digits
(leading zeros normalized away, as `as_tuple` reports them), the exponent is
the written exponent minus the number of fractional digits. -/
def pyDecimalOfString (s : String) : Option PyDecimal :=
  let (sgn, r0) := parseSign s.toList
  let (ip, r1) := takeDigits r0
  let (fp, r2) :=
    match r1 with
    | '.' :: r => takeDigits r
    | _ => ([], r1)
  if ip.length + fp.length = 0 then none
  else
    match r2 with
    | [] => some ⟨sgn, natDigits (natOfDigits (ip ++ fp)), -(fp.length : Int)⟩
    | c :: r3 =>
      if c = 'e' ∨ c = 'E' then
        let (esgn, r4) := parseSign r3
        let (ed, r5) := takeDigits r4
        if ed.length = 0 ∨ r5 ≠ [] then none
        else
          let ev : Int := if esgn then -(natOfDigits ed : Int) else (natOfDigits ed : Int)
          some ⟨sgn, natDigits (natOfDigits (ip ++ fp)), ev - (fp.length : Int)⟩
      else none

/-- Embeds `int(string)`: optional sign followed by one or more digits; `none`
embeds the `ValueError` raised otherwise (scientific notation, decimal
points, etc. are not accepted by `int`). -/
def pyIntOfString (s : String) : Option Int :=
  let (sgn, r0) := parseSign s.toList
  let (ds, r1) := takeDigits r0
  if ds.length = 0 ∨ r1 ≠ [] then none
  else some (if sgn then -(natOfDigits ds : Int) else (natOfDigits ds : Int))

/-- Embeds `Decimal.is_zero()`: the coefficient is zero. -/
def PyDecimal.isZero (d : PyDecimal) : Bool := d.digits.all (· = 0)

/-- Scaled magnitude of a decimal at a common exponent `m ≤ exp`. -/
def decScaled (d : PyDecimal) (m : Int) : Nat :=
  natOfDigits d.digits * 10 ^ (d.exp - m).toNat

/-- Embeds `Decimal.compare` on finite decimals: `-1`, `0` or `1` according to the
exact numeric order.  Both operands are brought to the smaller exponent and
compared as signed integers. -/
def pyCompare (d1 d2 : PyDecimal) : Int :=
  let m := min d1.exp d2.exp
  let a : Int := (if d1.sign then -1 else 1) * (decScaled d1 m : Int)
  let b : Int := (if d2.sign then -1 else 1) * (decScaled d2 m : Int)
  if a < b then -1 else if a = b then 0 else 1

/-- Multiplication under the module's decimal context
(`Context(prec=16, Emax=80, Emin=-96)`, rounding half-even, `Overflow`
trapped, `Underflow`/`Subnormal` untrapped).  The exact product is rounded
to 16 significant digits; if the adjusted exponent exceeds `Emax = 80` the
trapped `Overflow` signal raises; below `Etiny = Emin - prec + 1 = -111`
the coefficient is rounded so the exponent is clamped to `Etiny`
(untrapped underflow).  A zero result keeps the ideal exponent (its later
uses only test it for zero). -/
def ctxMul (d1 d2 : PyDecimal) : Except PyErr PyDecimal :=
  let sgn := d1.sign != d2.sign
  let c := natOfDigits d1.digits * natOfDigits d2.digits
  let e : Int := d1.exp + d2.exp
  if c = 0 then .ok ⟨sgn, [0], e⟩
  else
    let n := (natDigits c).length
    let shift := n - 16
    let c1 := halfEvenDiv c (10 ^ shift)
    let e1 : Int := e + shift
    let carry := (natDigits c1).length > 16
    let c2 := if carry then c1 / 10 else c1
    let e2 := if carry then e1 + 1 else e1
    let adj : Int := e2 + ((natDigits c2).length - 1 : Nat)
    if adj > 80 then .error (.decimalOverflow "above Emax")
    else if e2 < -111 then
      .ok ⟨sgn, natDigits (halfEvenDiv c2 (10 ^ (-111 - e2).toNat)), -111⟩
    else .ok ⟨sgn, natDigits c2, e2⟩

/-- Embeds `str(Decimal)`: the to-scientific-string conversion of the decimal
specification.  Plain notation when `exp ≤ 0` and the adjusted exponent is
at least `-6`; scientific notation (as in `1.000000000000000E+16`)
otherwise.  The string is assembled as one character list: an optional
minus sign, then the digits with the decimal point or exponent suffix
placed per the specification. -/
def decimalStr (d : PyDecimal) : String :=
  let n := d.digits.length
  let adj : Int := d.exp + n - 1
  let sgn : List Char := if d.sign then ['-'] else []
  let dc := d.digits.map charOfDigit
  if d.exp ≤ 0 ∧ adj ≥ -6 then
    if d.exp = 0 then ⟨sgn ++ dc⟩
    else if adj ≥ 0 then
      ⟨sgn ++ (dc.take ((n : Int) + d.exp).toNat ++ '.' :: dc.drop ((n : Int) + d.exp).toNat)⟩
    else ⟨sgn ++ ('0' :: '.' :: (List.replicate (-(adj + 1)).toNat '0' ++ dc))⟩
  else
    ⟨sgn ++ (dc.take 1 ++ (if n > 1 then '.' :: dc.drop 1 else []) ++
      ('E' :: (if adj ≥ 0 then '+' :: (toString adj).toList else (toString adj).toList)))⟩

/-- Embeds `"{:f}".format(Decimal)`: fixed-point formatting, never scientific. -/
def formatF (d : PyDecimal) : String :=
  let n := d.digits.length
  let sgn : List Char := if d.sign then ['-'] else []
  let dc := d.digits.map charOfDigit
  if d.exp ≥ 0 then ⟨sgn ++ (dc ++ List.replicate d.exp.toNat '0')⟩
  else if (n : Int) + d.exp > 0 then
    ⟨sgn ++ (dc.take ((n : Int) + d.exp).toNat ++ '.' :: dc.drop ((n : Int) + d.exp).toNat)⟩
  else ⟨sgn ++ ('0' :: '.' :: (List.replicate (-((n : Int) + d.exp)).toNat '0' ++ dc))⟩

-- Constants from amount.py lines 18-38.
def _MIN_IOU_EXPONENT : Int := -96
def _MAX_IOU_EXPONENT : Int := 80
def _MAX_IOU_PRECISION : Nat := 16
def _MIN_MANTISSA : Nat := 10 ^ 15
def _MAX_MANTISSA : Nat := 10 ^ 16 - 1
def _POS_SIGN_BIT_MASK : Nat := 0x4000000000000000
def _ZERO_CURRENCY_AMOUNT_HEX : Nat := 0x8000000000000000

/-- Embeds `getcontext().prec`: the module installs a context with precision
16 at load time, so this is the constant 16. -/
def getcontextPrec : Nat := 16

/-- Embeds `Decimal("1e-6")` (`_MIN_XRP`). -/
def _MIN_XRP : PyDecimal := ⟨false, [1], -6⟩

/-- Embeds `Decimal("1e17")` (`_MAX_DROPS`). -/
def _MAX_DROPS : PyDecimal := ⟨false, [1], 17⟩

/-- Embeds `_verify_no_decimal` (lines 132-144): multiply the value by
`Decimal("1e" + str(-(exponent - 15)))` under the context, format the
product with `"{:f}"`, and raise the codec exception if the formatted
string contains a decimal point. -/
def _verify_no_decimal (d : PyDecimal) : Except PyErr Unit := do
  let prod ← ctxMul d ⟨false, [1], 15 - d.exp⟩
  let int_number_string := formatF prod
  if !(_contains_decimal int_number_string) then
    .error (.codec "Decimal place found in int_number_str")
  else .ok ()

/-- Embeds `verify_iou_value` (lines 102-129).  Note that `precision` in the source
is `getcontext().prec` — the context's precision, which is the constant 16 —
so the first disjunct is always false; it is kept verbatim. -/
def verify_iou_value (d : PyDecimal) : Except PyErr Unit :=
  if d.isZero then .ok ()
  else if getcontextPrec > _MAX_IOU_PRECISION ∨ d.exp > _MAX_IOU_EXPONENT
      ∨ d.exp < _MIN_IOU_EXPONENT then
    .error (.codec "Decimal precision out of range for issued currency value.")
  else _verify_no_decimal d

/-- Embeds `verify_xrp_value` (lines 75-99): no decimal point, then zero is valid,
then the value must lie within `[Decimal("1e-6"), Decimal("1e17")]`
(`compare == -1` / `compare == 1` are strict). -/
def verify_xrp_value (s : String) : Except PyErr Unit :=
  if !(_contains_decimal s) then
    .error (.codec (s ++ " is an invalid XRP amount."))
  else
    match pyDecimalOfString s with
    | none => .error (.invalidOperation "invalid decimal literal")
    | some d =>
      if d.isZero then .ok ()
      else if pyCompare d _MIN_XRP = -1 ∨ pyCompare d _MAX_DROPS = 1 then
        .error (.codec (s ++ " is an invalid XRP amount."))
      else .ok ()

/-- The upscale loop of `_serialize_issued_currency_value` (lines 164-166):
`while mantissa < _MIN_MANTISSA and exp > _MIN_IOU_EXPONENT: mantissa *= 10;
exp -= 1`.  The fuel `(exp + 96).toNat` is exactly the `exp > -96` bound;
`upscale_eq` below restates the loop. -/
def upscaleAux : Nat → Nat → Int → Nat × Int
  | 0, m, e => (m, e)
  | f + 1, m, e =>
    if m < _MIN_MANTISSA then upscaleAux f (m * 10) (e - 1) else (m, e)

def upscale (m : Nat) (e : Int) : Nat × Int := upscaleAux (e + 96).toNat m e

/-- The downscale loop (lines 168-174): `while mantissa > _MAX_MANTISSA:
if exp >= _MAX_IOU_EXPONENT: raise ...; mantissa //= 10; exp += 1`.
`v` is the value string interpolated into the overflow message.
`downscale_eq` below restates the loop. -/
def downscaleAux (v : String) : Nat → Nat → Int → Except PyErr (Nat × Int)
  | 0, m, e => .ok (m, e)
  | f + 1, m, e =>
    if m > _MAX_MANTISSA then
      if e ≥ _MAX_IOU_EXPONENT then
        .error (.codec ("Amount overflow in issued currency value " ++ v))
      else downscaleAux v f (m / 10) (e + 1)
    else .ok (m, e)

def downscale (v : String) (m : Nat) (e : Int) : Except PyErr (Nat × Int) :=
  downscaleAux v (m + 1) m e

/-- Number of iterations the downscale loop performs on mantissa `m`
(ignoring the overflow abort): divisions by 10 until `m ≤ _MAX_MANTISSA`. -/
def stepsAux : Nat → Nat → Nat
  | 0, _ => 0
  | f + 1, m => if m > _MAX_MANTISSA then stepsAux f (m / 10) + 1 else 0

def steps (m : Nat) : Nat := stepsAux (m + 1) m

/-- Bit-packing of a canonical nonzero issued value (lines 186-190):
not-XRP bit, positive bit when the sign is non-negative, biased exponent in
bits 61-54, mantissa in bits 53-0. -/
def packSerial (sgn : Bool) (m : Nat) (e : Int) : Nat :=
  _ZERO_CURRENCY_AMOUNT_HEX |||
    (if sgn then 0 else _POS_SIGN_BIT_MASK) |||
    ((e + 97).toNat <<< 54) ||| m

/-- Lines 176-192 of `_serialize_issued_currency_value`, after the loops.
The source's "round to zero" branch (lines 176-178) computes
`_ZERO_CURRENCY_AMOUNT_HEX.to_bytes(...)` but does not return it — the
expression statement is discarded and control falls through — so the branch
below binds the bytes to an unused name and continues unconditionally,
exactly as the source does. -/
def finishSerial (v : String) (sgn : Bool) (m : Nat) (e : Int) :
    Except PyErr (List Nat) :=
  let _discardedRoundToZero :=
    if e < _MIN_IOU_EXPONENT ∨ m < _MIN_MANTISSA then
      some (bytes8 _ZERO_CURRENCY_AMOUNT_HEX)
    else none
  if e > _MAX_IOU_EXPONENT ∨ m > _MAX_MANTISSA then
    .error (.codec ("Amount overflow in issued currency value " ++ v))
  else .ok (bytes8 (packSerial sgn m e))

/-- Embeds `_serialize_issued_currency_value` on an already-constructed decimal
(everything in lines 147-192 after `Decimal(value)`); `v` is the original
string, used in error messages. -/
def serializeIouDec (v : String) (d : PyDecimal) : Except PyErr (List Nat) := do
  let () ← verify_iou_value d
  if d.isZero then
    return bytes8 _ZERO_CURRENCY_AMOUNT_HEX
  else
    let mantissa := natOfDigits d.digits
    let (m1, e1) := upscale mantissa d.exp
    let (m2, e2) ← downscale v m1 e1
    finishSerial v d.sign m2 e2

/-- Embeds `_serialize_issued_currency_value` (lines 147-192): construct the
decimal from the string, then serialize. -/
def _serialize_issued_currency_value (v : String) : Except PyErr (List Nat) :=
  match pyDecimalOfString v with
  | none => .error (.invalidOperation "invalid decimal literal")
  | some d => serializeIouDec v d

/-- Embeds `_serialize_xrp_amount` (lines 195-207): validate, then
`int(value) | _POS_SIGN_BIT_MASK`, big-endian 8 bytes.  `int(value)` raises
an untyped `ValueError` on any string that is not an optionally-signed digit
string; `to_bytes` would raise on a negative value (unreachable after
validation, kept for fidelity). -/
def _serialize_xrp_amount (s : String) : Except PyErr (List Nat) := do
  let () ← verify_xrp_value s
  match pyIntOfString s with
  | none => .error (.valueError ("invalid literal for int() with base 10: " ++ s))
  | some v =>
    if v < 0 then .error (.valueError "cannot convert negative int to unsigned")
    else .ok (bytes8 (v.toNat ||| _POS_SIGN_BIT_MASK))

/-- The `Amount` serialized type: an immutable byte buffer. -/
structure Amount where
  buffer : List Nat
deriving DecidableEq, Repr

/-- Embeds `Amount.from_value` restricted to the `isinstance(value, str)` branch
(lines 252-253): native XRP amounts. -/
def Amount.fromValueStr (s : String) : Except PyErr Amount :=
  (_serialize_xrp_amount s).map Amount.mk

/-- Embeds `Amount.is_native` (lines 318-325): high bit of the first byte clear. -/
def Amount.isNative (a : Amount) : Bool :=
  a.buffer.headD 0 &&& 0x80 == 0

/-- Embeds `Amount.is_positive` (lines 327-334): bit 62 (second bit of the first
byte) set. -/
def Amount.isPositive (a : Amount) : Bool :=
  decide (0 < a.buffer.headD 0 &&& 0x40)

/-- Result of `Amount.to_json`: a plain string for native amounts, or the
issued-currency object.  The currency and issuer collaborators
(`Currency.from_parser`, `AccountID.from_parser`) are outside this module
and treated as opaque; their 20-byte inputs are returned unchanged. -/
inductive AmountJson where
  | native (s : String)
  | issued (value : String) (currencyBytes : List Nat) (issuerBytes : List Nat)
deriving DecidableEq, Repr

/-- Embeds `Amount.to_json` (lines 279-316).  Native branch: `"-"` prefix when
`is_positive` is false, then the buffer masked with `0x3FFFFFFFFFFFFFFF` in
decimal.  Issued branch: split the 48-byte buffer into value/currency/issuer,
unpack sign, exponent and mantissa from the value field, rebuild the decimal
as `Decimal(f"{sign}{int_mantissa}") * Decimal(f"1e{exponent}")` under the
context, re-validate it, and render `str(value).rstrip("0").rstrip(".")`
(or `"0"` when zero). -/
def Amount.toJson (a : Amount) : Except PyErr AmountJson :=
  if a.isNative then
    let sign := if a.isPositive then "" else "-"
    let masked_bytes := bytesToNat a.buffer &&& 0x3FFFFFFFFFFFFFFF
    .ok (.native (sign ++ toString masked_bytes))
  else
    let value_bytes := a.buffer.take 8
    let currency := (a.buffer.drop 8).take 20
    let issuer := (a.buffer.drop 28).take 20
    let b1 := value_bytes.headD 0
    let b2 := (value_bytes.drop 1).headD 0
    let is_positive_bits := b1 &&& 0x40
    let sgnNeg := is_positive_bits == 0
    let exponent : Int := ((b1 &&& 0x3F) <<< 2 : Nat) + ((b2 &&& 0xFF) >>> 6 : Nat) - 97
    let int_mantissa := (b2 &&& 0x3F) * 2 ^ 48 + bytesToNat (value_bytes.drop 2)
    do
      let value ← ctxMul ⟨sgnNeg, natDigits int_mantissa, 0⟩ ⟨false, [1], exponent⟩
      let () ← verify_iou_value value
      let value_str :=
        if value.isZero then "0"
        else strRstrip (strRstrip (decimalStr value) '0') '.'
      .ok (.issued value_str currency issuer)

/-! ### Unfolding equations for the fuel-based recursions -/

lemma natDigitsAux_congr : ∀ (f g n : Nat), n < f → n < g →
    natDigitsAux f n = natDigitsAux g n := by
  intro f
  induction f with
  | zero => intro g n h; omega
  | succ f ih =>
    intro g n hf hg
    cases g with
    | zero => omega
    | succ g =>
      simp only [natDigitsAux]
      by_cases h10 : n < 10
      · simp [h10]
      · simp only [if_neg h10]
        have hd : n / 10 < n := Nat.div_lt_self (by omega) (by omega)
        rw [ih g (n / 10) (by omega) (by omega)]

lemma natDigits_eq (n : Nat) :
    natDigits n = if n < 10 then [n] else natDigits (n / 10) ++ [n % 10] := by
  by_cases h10 : n < 10
  · simp [natDigits, natDigitsAux, h10]
  · have hd : n / 10 < n := Nat.div_lt_self (by omega) (by omega)
    rw [if_neg h10]
    have h1 : natDigits n = natDigitsAux n (n / 10) ++ [n % 10] := by
      show natDigitsAux (n + 1) n = _
      rw [show natDigitsAux (n + 1) n
            = if n < 10 then [n] else natDigitsAux n (n / 10) ++ [n % 10] from rfl,
        if_neg h10]
    rw [h1, natDigitsAux_congr n (n / 10 + 1) (n / 10) (by omega) (by omega)]
    rfl

lemma stepsAux_congr : ∀ (f g m : Nat), m < f → m < g →
    stepsAux f m = stepsAux g m := by
  intro f
  induction f with
  | zero => intro g m h; omega
  | succ f ih =>
    intro g m hf hg
    cases g with
    | zero => omega
    | succ g =>
      simp only [stepsAux]
      by_cases hm : m > _MAX_MANTISSA
      · have hd : m / 10 < m := Nat.div_lt_self (by simp [_MAX_MANTISSA] at hm; omega) (by omega)
        simp only [if_pos hm]
        rw [ih g (m / 10) (by omega) (by omega)]
      · simp [hm]

lemma steps_eq (m : Nat) :
    steps m = if m > _MAX_MANTISSA then steps (m / 10) + 1 else 0 := by
  by_cases hm : m > _MAX_MANTISSA
  · have hd : m / 10 < m := Nat.div_lt_self (by simp [_MAX_MANTISSA] at hm; omega) (by omega)
    rw [if_pos hm]
    have h1 : steps m = stepsAux m (m / 10) + 1 := by
      show stepsAux (m + 1) m = _
      rw [show stepsAux (m + 1) m
            = if m > _MAX_MANTISSA then stepsAux m (m / 10) + 1 else 0 from rfl,
        if_pos hm]
    rw [h1, stepsAux_congr m (m / 10 + 1) (m / 10) (by omega) (by omega)]
    rfl
  · simp [steps, stepsAux, hm]

lemma downscaleAux_congr (v : String) : ∀ (f g m : Nat) (e : Int), m < f → m < g →
    downscaleAux v f m e = downscaleAux v g m e := by
  intro f
  induction f with
  | zero => intro g m e h; omega
  | succ f ih =>
    intro g m e hf hg
    cases g with
    | zero => omega
    | succ g =>
      simp only [downscaleAux]
      by_cases hm : m > _MAX_MANTISSA
      · have hd : m / 10 < m := Nat.div_lt_self (by simp [_MAX_MANTISSA] at hm; omega) (by omega)
        simp only [if_pos hm]
        by_cases he : e ≥ _MAX_IOU_EXPONENT
        · simp [he]
        · simp only [if_neg he]
          rw [ih g (m / 10) (e + 1) (by omega) (by omega)]
      · simp [hm]

lemma downscale_eq (v : String) (m : Nat) (e : Int) :
    downscale v m e =
      if m > _MAX_MANTISSA then
        if e ≥ _MAX_IOU_EXPONENT then
          .error (.codec ("Amount overflow in issued currency value " ++ v))
        else downscale v (m / 10) (e + 1)
      else .ok (m, e) := by
  by_cases hm : m > _MAX_MANTISSA
  · have hd : m / 10 < m := Nat.div_lt_self (by simp [_MAX_MANTISSA] at hm; omega) (by omega)
    rw [if_pos hm]
    have h1 : downscale v m e =
        if e ≥ _MAX_IOU_EXPONENT then
          .error (.codec ("Amount overflow in issued currency value " ++ v))
        else downscaleAux v m (m / 10) (e + 1) := by
      show downscaleAux v (m + 1) m e = _
      rw [show downscaleAux v (m + 1) m e
            = if m > _MAX_MANTISSA then
                if e ≥ _MAX_IOU_EXPONENT then
                  .error (.codec ("Amount overflow in issued currency value " ++ v))
                else downscaleAux v m (m / 10) (e + 1)
              else .ok (m, e) from rfl,
        if_pos hm]
    rw [h1]
    by_cases he : e ≥ _MAX_IOU_EXPONENT
    · simp [he]
    · rw [if_neg he, if_neg he,
        downscaleAux_congr v m (m / 10 + 1) (m / 10) (e + 1) (by omega) (by omega)]
      rfl
  · simp [downscale, downscaleAux, hm]

lemma upscale_of_ge (m : Nat) (e : Int) (h : ¬ m < _MIN_MANTISSA) :
    upscale m e = (m, e) := by
  unfold upscale
  cases (e + 96).toNat <;> simp [upscaleAux, h]

/-! ### Digit-list lemmas -/

lemma natOfDigits_append_singleton (l : List Nat) (d : Nat) :
    natOfDigits (l ++ [d]) = natOfDigits l * 10 + d := by
  simp [natOfDigits, List.foldl_append]

lemma natOfDigits_natDigits (n : Nat) : natOfDigits (natDigits n) = n := by
  induction n using Nat.strong_induction_on with
  | _ n ih =>
    rw [natDigits_eq]
    by_cases h : n < 10
    · rw [if_pos h]
      simp [natOfDigits]
    · have hd : n / 10 < n := Nat.div_lt_self (by omega) (by omega)
      rw [if_neg h, natOfDigits_append_singleton, ih (n / 10) hd]
      omega

lemma natDigits_length_bounds (n : Nat) (hn : 1 ≤ n) :
    1 ≤ (natDigits n).length ∧
      10 ^ ((natDigits n).length - 1) ≤ n ∧ n < 10 ^ (natDigits n).length := by
  induction n using Nat.strong_induction_on with
  | _ n ih =>
    by_cases h : n < 10
    · rw [natDigits_eq, if_pos h]
      simp only [List.length_singleton]
      have h1 : (10 : ℕ) ^ (1 - 1) = 1 := by norm_num
      have h2 : (10 : ℕ) ^ 1 = 10 := by norm_num
      exact ⟨le_refl 1, by omega, by omega⟩
    · have hd : n / 10 < n := Nat.div_lt_self (by omega) (by omega)
      have hd1 : 1 ≤ n / 10 := by omega
      obtain ⟨hL1, hlow, hhigh⟩ := ih (n / 10) hd hd1
      rw [natDigits_eq, if_neg h]
      simp only [List.length_append, List.length_singleton]
      set L := (natDigits (n / 10)).length with hL
      have e1 : L - 1 + 1 = L := by omega
      have hps : 10 ^ L = 10 ^ (L - 1) * 10 := by
        conv_lhs => rw [← e1]
        rw [Nat.pow_succ]
      have hps2 : 10 ^ (L + 1) = 10 ^ L * 10 := by rw [Nat.pow_succ]
      have key1 : 10 ^ L ≤ n := by
        have h2 : 10 ^ (L - 1) * 10 ≤ (n / 10) * 10 := Nat.mul_le_mul_right 10 hlow
        have h3 : (n / 10) * 10 ≤ n := Nat.div_mul_le_self n 10
        omega
      have key2 : n < 10 ^ (L + 1) := by
        have h2 : n / 10 + 1 ≤ 10 ^ L := hhigh
        have h3 : n < (n / 10 + 1) * 10 := by omega
        have h4 : (n / 10 + 1) * 10 ≤ 10 ^ L * 10 := Nat.mul_le_mul_right 10 h2
        omega
      have e2 : L + 1 - 1 = L := by omega
      rw [e2]
      exact ⟨by omega, key1, key2⟩

lemma natDigits_length_eq (n k : Nat) (hk : 1 ≤ k)
    (h1 : 10 ^ (k - 1) ≤ n) (h2 : n < 10 ^ k) : (natDigits n).length = k := by
  have hn : 1 ≤ n := le_trans (Nat.one_le_iff_ne_zero.mpr (pow_ne_zero _ (by norm_num))) h1
  obtain ⟨hL1, hlow, hhigh⟩ := natDigits_length_bounds n hn
  set L := (natDigits n).length with hL
  have c1 : 10 ^ (L - 1) < 10 ^ k := lt_of_le_of_lt hlow h2
  have c2 : 10 ^ (k - 1) < 10 ^ L := lt_of_le_of_lt h1 hhigh
  have d1 : L - 1 < k := (Nat.pow_lt_pow_iff_right (by norm_num : 1 < 10)).mp c1
  have d2 : k - 1 < L := (Nat.pow_lt_pow_iff_right (by norm_num : 1 < 10)).mp c2
  omega

lemma natOfDigits_all_zero (l : List Nat) (h : ∀ d ∈ l, d = 0) :
    natOfDigits l = 0 := by
  induction l with
  | nil => rfl
  | cons d t ih =>
    have hd : d = 0 := h d (List.mem_cons_self d t)
    have ht : ∀ x ∈ t, x = 0 := fun x hx => h x (List.mem_cons_of_mem d hx)
    simp [natOfDigits] at ih ⊢
    rw [hd]
    simpa [natOfDigits] using ih ht

lemma isZero_natDigits (s : Bool) (e : Int) (m : Nat) (hm : m ≠ 0) :
    PyDecimal.isZero ⟨s, natDigits m, e⟩ = false := by
  by_contra h
  have hz : PyDecimal.isZero ⟨s, natDigits m, e⟩ = true := by
    cases hzz : PyDecimal.isZero ⟨s, natDigits m, e⟩
    · exact absurd hzz h
    · rfl
  simp only [PyDecimal.isZero, List.all_eq_true, decide_eq_true_eq] at hz
  exact hm (by rw [← natOfDigits_natDigits m]; exact natOfDigits_all_zero _ hz)

/-! ### Downscale-loop correctness -/

lemma downscale_ok (v : String) : ∀ (m : Nat) (e : Int), e + steps m ≤ 80 →
    downscale v m e = .ok (m / 10 ^ steps m, e + steps m) := by
  intro m
  induction m using Nat.strong_induction_on with
  | _ m ih =>
    intro e he
    rw [downscale_eq]
    by_cases hm : m > _MAX_MANTISSA
    · have hd : m / 10 < m := Nat.div_lt_self (by simp [_MAX_MANTISSA] at hm; omega) (by omega)
      have hs : steps m = steps (m / 10) + 1 := by rw [steps_eq, if_pos hm]
      rw [hs] at he
      have hne : ¬ e ≥ _MAX_IOU_EXPONENT := by
        simp only [_MAX_IOU_EXPONENT]
        omega
      rw [if_pos hm, if_neg hne, ih (m / 10) hd (e + 1) (by omega)]
      have hdiv : m / 10 / 10 ^ steps (m / 10) = m / 10 ^ steps m := by
        rw [Nat.div_div_eq_div_mul, hs, Nat.pow_succ]
        ring_nf
      rw [hdiv]
      have : e + 1 + (steps (m / 10) : Int) = e + (steps m : Int) := by
        rw [hs]
        push_cast
        ring
      rw [this]
    · have hs : steps m = 0 := by rw [steps_eq, if_neg hm]
      rw [if_neg hm, hs]
      simp

lemma steps_div_le : ∀ (m : Nat), m / 10 ^ steps m ≤ _MAX_MANTISSA := by
  intro m
  induction m using Nat.strong_induction_on with
  | _ m ih =>
    by_cases hm : m > _MAX_MANTISSA
    · have hd : m / 10 < m := Nat.div_lt_self (by simp [_MAX_MANTISSA] at hm; omega) (by omega)
      have hs : steps m = steps (m / 10) + 1 := by rw [steps_eq, if_pos hm]
      have hdiv : m / 10 ^ steps m = m / 10 / 10 ^ steps (m / 10) := by
        rw [Nat.div_div_eq_div_mul, hs, Nat.pow_succ]
        ring_nf
      rw [hdiv]
      exact ih (m / 10) hd
    · have hs : steps m = 0 := by rw [steps_eq, if_neg hm]
      rw [hs]
      simpa using by omega

/-! ### Half-even division and bit/byte lemmas -/

lemma halfEvenDiv_bounds (a b : Nat) : a / b ≤ halfEvenDiv a b ∧ halfEvenDiv a b ≤ a / b + 1 := by
  simp only [halfEvenDiv]
  split_ifs <;> omega

lemma halfEvenDiv_one (a : Nat) : halfEvenDiv a 1 = a := by
  simp only [halfEvenDiv]
  split_ifs <;> omega

lemma lor_two_pow_eq_add (k v : Nat) (h : v < 2 ^ k) : v ||| 2 ^ k = 2 ^ k + v := by
  have h1 := Nat.mul_add_lt_is_or h 1
  rw [Nat.mul_one] at h1
  rw [Nat.lor_comm]
  exact h1.symm

lemma bytesToNat_bytes8 (n : Nat) (h : n < 2 ^ 64) : bytesToNat (bytes8 n) = n := by
  simp only [bytesToNat, bytes8, List.foldl]
  omega

lemma and_mask62 (n : Nat) : n &&& 0x3FFFFFFFFFFFFFFF = n % 2 ^ 62 := by
  have h : (0x3FFFFFFFFFFFFFFF : Nat) = 2 ^ 62 - 1 := by norm_num
  rw [h, Nat.and_pow_two_sub_one_eq_mod]

/-! ### Digit-string parsing lemmas -/

lemma charToDigit_dot : ('.' : Char).isDigit = false := by decide

lemma parseSign_of_digit (c : Char) (r : List Char) (h : c.isDigit = true) :
    parseSign (c :: r) = (false, c :: r) := by
  have h1 : c ≠ '-' := by rintro rfl; simp at h
  have h2 : c ≠ '+' := by rintro rfl; simp at h
  simp [parseSign, h1, h2]

lemma takeDigits_of_all (l : List Char) (h : ∀ c ∈ l, c.isDigit = true) :
    takeDigits l = (l.map charToDigit, []) := by
  induction l with
  | nil => rfl
  | cons c r ih =>
    have hc : c.isDigit = true := h c (List.mem_cons_self c r)
    have hr : ∀ x ∈ r, x.isDigit = true := fun x hx => h x (List.mem_cons_of_mem c hx)
    simp [takeDigits, hc, ih hr]

lemma not_dot_of_digits (s : String) (h : ∀ c ∈ s.toList, c.isDigit = true) :
    _contains_decimal s = true := by
  simp only [_contains_decimal, Bool.not_eq_true', ← Bool.not_eq_true]
  intro hmem
  have : ('.' : Char) ∈ s.toList := by
    simpa [List.contains_iff_exists_mem_beq, beq_iff_eq] using hmem
  have := h _ this
  simp at this

lemma pyDecimalOfString_digits (s : String) (hne : s.toList ≠ [])
    (h : ∀ c ∈ s.toList, c.isDigit = true) :
    pyDecimalOfString s =
      some ⟨false, natDigits (natOfDigits (s.toList.map charToDigit)), 0⟩ := by
  obtain ⟨c, r, hcr⟩ : ∃ c r, s.toList = c :: r := by
    cases hl : s.toList with
    | nil => exact absurd hl hne
    | cons c r => exact ⟨c, r, rfl⟩
  have hall : ∀ x ∈ c :: r, x.isDigit = true := by rw [← hcr]; exact h
  have h1 : parseSign (c :: r) = (false, c :: r) :=
    parseSign_of_digit c r (hall c (List.mem_cons_self c r))
  have h2 : takeDigits (c :: r) = ((c :: r).map charToDigit, []) :=
    takeDigits_of_all (c :: r) hall
  simp only [pyDecimalOfString, hcr, h1, h2]
  simp

lemma pyIntOfString_digits (s : String) (hne : s.toList ≠ [])
    (h : ∀ c ∈ s.toList, c.isDigit = true) :
    pyIntOfString s = some ((natOfDigits (s.toList.map charToDigit) : Int)) := by
  obtain ⟨c, r, hcr⟩ : ∃ c r, s.toList = c :: r := by
    cases hl : s.toList with
    | nil => exact absurd hl hne
    | cons c r => exact ⟨c, r, rfl⟩
  have hall : ∀ x ∈ c :: r, x.isDigit = true := by rw [← hcr]; exact h
  have h1 : parseSign (c :: r) = (false, c :: r) :=
    parseSign_of_digit c r (hall c (List.mem_cons_self c r))
  have h2 : takeDigits (c :: r) = ((c :: r).map charToDigit, []) :=
    takeDigits_of_all (c :: r) hall
  simp only [pyIntOfString, hcr, h1, h2]
  simp

/-! ### Comparison lemmas for nonzero integer-valued decimals -/

lemma pyCompare_min_xrp (v : Nat) (hv : 1 ≤ v) :
    pyCompare ⟨false, natDigits v, 0⟩ _MIN_XRP = 1 := by
  simp only [pyCompare, _MIN_XRP, decScaled, natOfDigits_natDigits]
  dsimp only
  have hmin : min (0 : Int) (-6 : Int) = -6 := by decide
  rw [hmin]
  have e1 : ((0 : Int) - (-6 : Int)).toNat = 6 := by decide
  have e2 : ((-6 : Int) - (-6 : Int)).toNat = 0 := by decide
  rw [e1, e2]
  have hb : natOfDigits [1] * 10 ^ 0 = 1 := by decide
  rw [hb]
  have hp : (10 : ℕ) ^ 6 = 1000000 := by norm_num
  rw [hp]
  have hge : (1000000 : Int) ≤ ((v * 1000000 : Nat) : Int) := by
    have h3 : 1000000 ≤ v * 1000000 := by
      have := Nat.mul_le_mul_right 1000000 hv
      omega
    exact_mod_cast h3
  norm_num
  split_ifs <;> omega

lemma pyCompare_max_drops_ne (v : Nat) (hv : v ≤ 10 ^ 17) :
    pyCompare ⟨false, natDigits v, 0⟩ _MAX_DROPS ≠ 1 := by
  simp only [pyCompare, _MAX_DROPS, decScaled, natOfDigits_natDigits]
  dsimp only
  have hmin : min (0 : Int) (17 : Int) = 0 := by decide
  rw [hmin]
  have e1 : ((0 : Int) - (0 : Int)).toNat = 0 := by decide
  have e2 : ((17 : Int) - (0 : Int)).toNat = 17 := by decide
  rw [e1, e2]
  have hb : natOfDigits [1] * 10 ^ 17 = 100000000000000000 := by decide
  rw [hb]
  have hv0 : v * 10 ^ 0 = v := by omega
  rw [hv0]
  have hle : ((v : Nat) : Int) ≤ ((100000000000000000 : Nat) : Int) := by
    exact_mod_cast (by norm_num at hv ⊢; omega : v ≤ (100000000000000000 : Nat))
  norm_num
  split_ifs <;> first | omega | simp_all

/-! ### The native validator accepts every in-range digit string -/

lemma verify_xrp_value_digits (s : String) (hne : s.toList ≠ [])
    (hd : ∀ c ∈ s.toList, c.isDigit = true)
    (hle : natOfDigits (s.toList.map charToDigit) ≤ 10 ^ 17) :
    verify_xrp_value s = .ok () := by
  have hnc := not_dot_of_digits s hd
  have hp := pyDecimalOfString_digits s hne hd
  simp only [verify_xrp_value, hnc, Bool.not_true, Bool.false_eq_true, if_false, hp]
  by_cases hz : natOfDigits (s.toList.map charToDigit) = 0
  · rw [hz]
    have hzd : PyDecimal.isZero ⟨false, natDigits 0, 0⟩ = true := by decide
    simp [hzd]
  · have hzf := isZero_natDigits false 0 (natOfDigits (s.toList.map charToDigit)) hz
    have hc1 := pyCompare_min_xrp (natOfDigits (s.toList.map charToDigit)) (by omega)
    have hc2 := pyCompare_max_drops_ne (natOfDigits (s.toList.map charToDigit)) hle
    have hcond : ¬(pyCompare ⟨false, natDigits (natOfDigits (s.toList.map charToDigit)), 0⟩
          _MIN_XRP = -1
        ∨ pyCompare ⟨false, natDigits (natOfDigits (s.toList.map charToDigit)), 0⟩
          _MAX_DROPS = 1) := by
      rintro (hl | hr)
      · rw [hc1] at hl
        exact absurd hl (by decide)
      · exact hc2 hr
    rw [hzf]
    simp only [Bool.false_eq_true, if_false]
    rw [if_neg hcond]

/-! ### No decimal point in non-negative-exponent formatting -/

lemma charOfDigit_ne_dot (d : Nat) : charOfDigit d ≠ '.' := by
  rcases d with _ | _ | _ | _ | _ | _ | _ | _ | _ | _ | n <;>
    first
      | decide
      | exact (by decide : ('0' : Char) ≠ '.')

lemma contains_eq_false_of_not_mem (l : List Char) (c : Char) (h : c ∉ l) :
    l.contains c = false := by
  cases hc : l.contains c
  · rfl
  · exfalso
    exact h (by simpa [List.contains_iff_exists_mem_beq, beq_iff_eq] using hc)

lemma formatF_no_dot (d : PyDecimal) (h : d.exp ≥ 0) :
    _contains_decimal (formatF d) = true := by
  simp only [formatF, if_pos h]
  have hmem : ('.' : Char) ∉
      (if d.sign then ['-'] else []) ++
        (d.digits.map charOfDigit ++ List.replicate d.exp.toNat '0') := by
    intro hmem
    rcases List.mem_append.mp hmem with h1 | h2
    · cases hs : d.sign <;> rw [hs] at h1 <;> simp at h1
    · rcases List.mem_append.mp h2 with h3 | h4
      · obtain ⟨d0, _, hd0⟩ := List.mem_map.mp h3
        exact charOfDigit_ne_dot d0 hd0
      · exact absurd (List.mem_replicate.mp h4).2 (by decide)
  have := contains_eq_false_of_not_mem _ _ hmem
  simp only [_contains_decimal]
  rw [show (String.mk ((if d.sign then ['-'] else []) ++
      (d.digits.map charOfDigit ++ List.replicate d.exp.toNat '0'))).toList
      = (if d.sign then ['-'] else []) ++
        (d.digits.map charOfDigit ++ List.replicate d.exp.toNat '0') from rfl]
  rw [this]
  rfl

/-! ### Decoding the native branch of `to_json` -/

lemma bytes8_headD (n : Nat) (h : n < 2 ^ 63) : (bytes8 n).headD 0 = n / 2 ^ 56 := by
  simp only [bytes8, List.headD]
  omega

lemma isNative_bytes8 (n : Nat) (h : n < 2 ^ 63) :
    (Amount.mk (bytes8 n)).isNative = true := by
  simp only [Amount.isNative]
  rw [bytes8_headD n h]
  have hlt : n / 2 ^ 56 < 2 ^ 7 := by omega
  rw [show (128 : Nat) = 2 ^ 7 from rfl, Nat.and_two_pow,
    Nat.testBit_lt_two_pow hlt]
  rfl

lemma isPositive_bytes8 (n : Nat) (h : n < 2 ^ 63) :
    (Amount.mk (bytes8 n)).isPositive = n.testBit 62 := by
  simp only [Amount.isPositive]
  rw [bytes8_headD n h]
  have hdd : n / 2 ^ 56 / 2 ^ 6 = n / 2 ^ 62 := by
    rw [Nat.div_div_eq_div_mul]
    norm_num
  have htb : (n / 2 ^ 56).testBit 6 = n.testBit 62 := by
    rw [Nat.testBit_to_div_mod, Nat.testBit_to_div_mod, hdd]
  have hand : n / 2 ^ 56 &&& 64 = (n.testBit 62).toNat * 64 := by
    rw [show (64 : Nat) = 2 ^ 6 from rfl, Nat.and_two_pow, htb]
  rw [hand]
  cases hb : n.testBit 62 <;> simp

lemma toJson_native_eq (n : Nat) (h : n < 2 ^ 63) :
    (Amount.mk (bytes8 n)).toJson =
      .ok (.native ((if n.testBit 62 then "" else "-") ++ toString (n % 2 ^ 62))) := by
  have h1 := isNative_bytes8 n h
  have h2 := isPositive_bytes8 n h
  have h3 : bytesToNat (Amount.mk (bytes8 n)).buffer = n :=
    bytesToNat_bytes8 n (by omega)
  simp only [Amount.toJson, h1, if_true, h2, h3, and_mask62]

/-! ### The issued-value validator accepts wide mantissas (17 to 65 digits) -/

lemma ctxMul_wide (sgn : Bool) (m : Nat) (e : Int)
    (h1 : 10 ^ 16 ≤ m) (h2 : m < 10 ^ 65) :
    ∃ dd : PyDecimal,
      ctxMul ⟨sgn, natDigits m, e⟩ ⟨false, [1], 15 - e⟩ = .ok dd ∧ 0 ≤ dd.exp := by
  have hm1 : 1 ≤ m := by
    have : (0 : Nat) < 10 ^ 16 := by norm_num
    omega
  obtain ⟨hn1, hlow, hhigh⟩ := natDigits_length_bounds m hm1
  set n := (natDigits m).length with hn
  have h17 : 17 ≤ n := by
    have hlt : (10 : ℕ) ^ 16 < 10 ^ n := lt_of_le_of_lt h1 hhigh
    have := (Nat.pow_lt_pow_iff_right (by norm_num : 1 < 10)).mp hlt
    omega
  have h65 : n ≤ 65 := by
    have hlt : (10 : ℕ) ^ (n - 1) < 10 ^ 65 := lt_of_le_of_lt hlow h2
    have := (Nat.pow_lt_pow_iff_right (by norm_num : 1 < 10)).mp hlt
    omega
  have hppos : 0 < (10 : ℕ) ^ (n - 16) := pow_pos (by norm_num) _
  have hq1 : 10 ^ 15 ≤ m / 10 ^ (n - 16) := by
    rw [Nat.le_div_iff_mul_le hppos, ← pow_add]
    have he : 15 + (n - 16) = n - 1 := by omega
    rw [he]
    exact hlow
  have hq2 : m / 10 ^ (n - 16) < 10 ^ 16 := by
    rw [Nat.div_lt_iff_lt_mul hppos, ← pow_add]
    have he : 16 + (n - 16) = n := by omega
    rw [he]
    exact hhigh
  have hhe := halfEvenDiv_bounds m (10 ^ (n - 16))
  set c1 := halfEvenDiv m (10 ^ (n - 16)) with hc1
  have hc1low : 10 ^ 15 ≤ c1 := le_trans hq1 hhe.1
  have hc1high : c1 ≤ 10 ^ 16 := by omega
  have hcm : natOfDigits (natDigits m) * natOfDigits [1] = m := by
    rw [natOfDigits_natDigits, show natOfDigits [1] = 1 from rfl, Nat.mul_one]
  have hmne : ¬(m = 0) := by omega
  have he15 : e + (15 - e) = (15 : Int) := by ring
  rcases Nat.lt_or_ge c1 (10 ^ 16) with hlt | hge
  · -- no carry: the rounded coefficient keeps 16 digits
    have hlen : (natDigits c1).length = 16 :=
      natDigits_length_eq c1 16 (by norm_num) (by norm_num; omega) hlt
    have hcar : ((natDigits c1).length > 16) = False := by simp [hlen]
    have hadj : ((15 : Int) + (n - 16 : Nat) + (((natDigits c1).length - 1 : Nat) : Int) > 80)
        = False := by
      simp only [hlen, eq_iff_iff, iff_false, not_lt]
      omega
    have hsub : ((15 : Int) + (n - 16 : Nat) < -111) = False := by
      simp only [eq_iff_iff, iff_false, not_lt]
      omega
    refine ⟨⟨sgn != false, natDigits c1, 15 + (n - 16 : Nat)⟩, ?_, by
      simp only []
      omega⟩
    simp only [ctxMul, hcm, he15, hn, hc1, hcar, if_false, hadj, hsub, if_neg hmne]
  · -- carry: the rounding overflowed to 10^16, one more division
    have hc1eq : c1 = 10 ^ 16 := by omega
    have hlen17 : (natDigits (10 ^ 16)).length = 17 := by decide
    have hdiv : (10 : ℕ) ^ 16 / 10 = 10 ^ 15 := by norm_num
    have hlen15 : (natDigits (10 ^ 15)).length = 16 := by decide
    have hcar : ((natDigits c1).length > 16) = True := by
      rw [hc1eq, hlen17]
      simp
    have hadj : ((15 : Int) + (n - 16 : Nat) + 1 + (((natDigits (c1 / 10)).length - 1 : Nat) : Int) > 80)
        = False := by
      rw [hc1eq, hdiv, hlen15]
      simp only [eq_iff_iff, iff_false, not_lt]
      omega
    have hsub : ((15 : Int) + (n - 16 : Nat) + 1 < -111) = False := by
      simp only [eq_iff_iff, iff_false, not_lt]
      omega
    refine ⟨⟨sgn != false, natDigits (c1 / 10), 15 + (n - 16 : Nat) + 1⟩, ?_, by
      simp only []
      omega⟩
    simp only [ctxMul, hcm, he15, hn, hc1, hcar, if_true, hadj, hsub, if_neg hmne]
    rfl

lemma verify_no_decimal_wide (sgn : Bool) (m : Nat) (e : Int)
    (h1 : 10 ^ 16 ≤ m) (h2 : m < 10 ^ 65) :
    _verify_no_decimal ⟨sgn, natDigits m, e⟩ = .ok () := by
  obtain ⟨dd, hdd, hde⟩ := ctxMul_wide sgn m e h1 h2
  have hfmt := formatF_no_dot dd hde
  simp only [_verify_no_decimal, hdd]
  show (if (!_contains_decimal (formatF dd)) = true then
      Except.error (PyErr.codec "Decimal place found in int_number_str")
    else Except.ok ()) = Except.ok ()
  rw [hfmt]
  simp

lemma verify_iou_wide (sgn : Bool) (m : Nat) (e : Int)
    (h1 : 10 ^ 16 ≤ m) (h2 : m < 10 ^ 65) (h3 : -96 ≤ e) (h4 : e ≤ 80) :
    verify_iou_value ⟨sgn, natDigits m, e⟩ = .ok () := by
  have hm0 : m ≠ 0 := by
    have : (0 : Nat) < 10 ^ 16 := by norm_num
    omega
  have hzf := isZero_natDigits sgn e m hm0
  have hrange : ¬(getcontextPrec > _MAX_IOU_PRECISION
      ∨ (⟨sgn, natDigits m, e⟩ : PyDecimal).exp > _MAX_IOU_EXPONENT
      ∨ (⟨sgn, natDigits m, e⟩ : PyDecimal).exp < _MIN_IOU_EXPONENT) := by
    simp only [getcontextPrec, _MAX_IOU_PRECISION, _MAX_IOU_EXPONENT, _MIN_IOU_EXPONENT]
    push_neg
    refine ⟨by omega, by omega, by omega⟩
  simp only [verify_iou_value, hzf, Bool.false_eq_true, if_false, if_neg hrange]
  exact verify_no_decimal_wide sgn m e h1 h2

/-- Serialization of a wide (17-65 significant digits) in-range mantissa:
no error, upscale is a no-op, the downscale loop truncates by integer
division, and the packed result carries `m / 10 ^ steps m`. -/
lemma serializeIouDec_wide (v : String) (sgn : Bool) (m : Nat) (e : Int)
    (h1 : 10 ^ 16 ≤ m) (h2 : m < 10 ^ 65) (h3 : -96 ≤ e) (h4 : e ≤ 80)
    (h5 : e + (steps m : Int) ≤ 80) :
    serializeIouDec v ⟨sgn, natDigits m, e⟩ =
      .ok (bytes8 (packSerial sgn (m / 10 ^ steps m) (e + (steps m : Int)))) := by
  have hm0 : m ≠ 0 := by
    have : (0 : Nat) < 10 ^ 16 := by norm_num
    omega
  have hzf := isZero_natDigits sgn e m hm0
  have hver := verify_iou_wide sgn m e h1 h2 h3 h4
  have hup : upscale m e = (m, e) := by
    apply upscale_of_ge
    simp only [_MIN_MANTISSA]
    have : (10 : ℕ) ^ 15 ≤ 10 ^ 16 := by norm_num
    omega
  have hdown := downscale_ok v m e h5
  have hfin : finishSerial v sgn (m / 10 ^ steps m) (e + (steps m : Int)) =
      .ok (bytes8 (packSerial sgn (m / 10 ^ steps m) (e + (steps m : Int)))) := by
    have hle := steps_div_le m
    have hcond : ¬(e + (steps m : Int) > _MAX_IOU_EXPONENT
        ∨ m / 10 ^ steps m > _MAX_MANTISSA) := by
      simp only [_MAX_IOU_EXPONENT]
      push_neg
      exact ⟨by omega, by omega⟩
    simp only [finishSerial, if_neg hcond]
  simp only [serializeIouDec, hver, hzf, natOfDigits_natDigits, hup, hdown]
  show (if false = true then pure (bytes8 _ZERO_CURRENCY_AMOUNT_HEX)
      else finishSerial v sgn (m / 10 ^ steps m) (e + (steps m : Int))) =
    Except.ok (bytes8 (packSerial sgn (m / 10 ^ steps m) (e + (steps m : Int))))
  simpa using hfin

/-! ### Native round trip for plain digit strings -/

lemma serialize_xrp_digits (s : String) (hne : s.toList ≠ [])
    (hd : ∀ c ∈ s.toList, c.isDigit = true)
    (hle : natOfDigits (s.toList.map charToDigit) ≤ 10 ^ 17) :
    _serialize_xrp_amount s =
      .ok (bytes8 (2 ^ 62 + natOfDigits (s.toList.map charToDigit))) := by
  set v := natOfDigits (s.toList.map charToDigit) with hv
  have hver := verify_xrp_value_digits s hne hd hle
  have hint := pyIntOfString_digits s hne hd
  have hv62 : v < 2 ^ 62 := by
    have : (10 : ℕ) ^ 17 < 2 ^ 62 := by norm_num
    omega
  simp only [_serialize_xrp_amount, hver, hint]
  show (if (v : Int) < 0 then
      Except.error (PyErr.valueError "cannot convert negative int to unsigned")
    else Except.ok (bytes8 ((v : Int).toNat ||| _POS_SIGN_BIT_MASK))) = _
  rw [if_neg (by omega : ¬((v : Int) < 0))]
  rw [Int.toNat_natCast, show _POS_SIGN_BIT_MASK = 2 ^ 62 from rfl,
    lor_two_pow_eq_add 62 v hv62]

lemma testBit62_two_pow_add (v : Nat) (h : v < 2 ^ 62) :
    (2 ^ 62 + v).testBit 62 = true := by
  rw [Nat.testBit_to_div_mod]
  have hd : (2 ^ 62 + v) / 2 ^ 62 = 1 := by omega
  rw [hd]
  decide

/-! ### Bit decomposition of the packed issued value field -/

lemma lor_decompose (a b k : Nat) (hb : b < 2 ^ k) (ha : ∃ q, a = 2 ^ k * q) :
    a ||| b = a + b := by
  obtain ⟨q, rfl⟩ := ha
  exact (Nat.mul_add_lt_is_or hb q).symm

lemma packSerial_eq_add (sgn : Bool) (m : Nat) (e : Int)
    (hm : m < 2 ^ 54) (he1 : -96 ≤ e) (he2 : e ≤ 80) :
    packSerial sgn m e =
      2 ^ 63 + (if sgn then 0 else 2 ^ 62) + (e + 97).toNat * 2 ^ 54 + m := by
  have ht : 1 ≤ (e + 97).toNat ∧ (e + 97).toNat ≤ 177 := by omega
  set t := (e + 97).toNat with htdef
  simp only [packSerial, Nat.shiftLeft_eq,
    show _ZERO_CURRENCY_AMOUNT_HEX = 2 ^ 63 from rfl,
    show _POS_SIGN_BIT_MASK = 2 ^ 62 from rfl]
  have s1 : (2 ^ 63 : Nat) ||| (if sgn then 0 else 2 ^ 62)
      = 2 ^ 63 + (if sgn then 0 else 2 ^ 62) := by
    cases sgn
    · simp only [Bool.false_eq_true, if_false]
      exact lor_decompose _ _ 63 (by norm_num) ⟨1, by norm_num⟩
    · simp
  have s2 : (2 ^ 63 + (if sgn then 0 else 2 ^ 62)) ||| t * 2 ^ 54
      = 2 ^ 63 + (if sgn then 0 else 2 ^ 62) + t * 2 ^ 54 := by
    apply lor_decompose _ _ 62
    · omega
    · cases sgn
      · exact ⟨3, by norm_num⟩
      · exact ⟨2, by norm_num⟩
  have s3 : (2 ^ 63 + (if sgn then 0 else 2 ^ 62) + t * 2 ^ 54) ||| m
      = 2 ^ 63 + (if sgn then 0 else 2 ^ 62) + t * 2 ^ 54 + m := by
    apply lor_decompose _ _ 54 hm
    cases sgn
    · exact ⟨512 + 256 + t, by simp only [Bool.false_eq_true, if_false]; omega⟩
    · exact ⟨512 + t, by simp only [if_true]; omega⟩
  rw [s1, s2, s3]

lemma packSerial_byte0 (sgn : Bool) (m : Nat) (e : Int)
    (hm : m < 2 ^ 54) (he1 : -96 ≤ e) (he2 : e ≤ 80) :
    (bytes8 (packSerial sgn m e)).headD 0 =
      128 + (if sgn then 0 else 64) + (e + 97).toNat / 4 := by
  rw [packSerial_eq_add sgn m e hm he1 he2]
  have ht : 1 ≤ (e + 97).toNat ∧ (e + 97).toNat ≤ 177 := by omega
  set t := (e + 97).toNat with htdef
  simp only [bytes8, List.headD]
  cases sgn
  · simp only [Bool.false_eq_true, if_false]
    omega
  · simp only [if_true]
    omega

/-! ### Claim theorems -/

/-- C1: the claim says `_serialize_issued_currency_value` returns the 8-byte
zero encoding (only bit 63 set) when canonicalization ends below the
representable window, e.g. for `"1e-96"`.  The code computes those zero
bytes but never returns them (missing `return` at amount.py line 178): for
`"1e-96"` it falls through and packs the out-of-window mantissa 1 with
exponent -96, producing `0xC040000000000001`, which is not the zero
encoding.  This refutes the claim and confirms the spec's stated intent is
violated by the code. -/
theorem c1_round_to_zero_falls_through :
    _serialize_issued_currency_value "1e-96" = .ok (bytes8 0xC040000000000001)
    ∧ bytes8 0xC040000000000001 ≠ bytes8 _ZERO_CURRENCY_AMOUNT_HEX :=
  ⟨rfl, by decide⟩

/-- C2 counterexample: the claim says `to_json` renders every native buffer
(bit 63 clear) as an unsigned digit string regardless of bit 62.  For the
buffer encoding 5 with bit 62 clear the code prepends a minus sign and
returns `"-5"`, not `"5"`. -/
theorem c2_counterexample :
    (Amount.mk (bytes8 5)).toJson = .ok (.native "-5") ∧ "-5" ≠ "5" :=
  ⟨rfl, by decide⟩

/-- C2 amended: for every 8-byte buffer with bit 63 clear, `to_json` masks
bits 63-62 and renders the remaining 62 bits as an unsigned base-10 string,
prefixed with `"-"` exactly when bit 62 (the positivity flag) is clear and
unsigned exactly when it is set. -/
theorem c2_amended (n : Nat) (h : n < 2 ^ 63) :
    (Amount.mk (bytes8 n)).toJson =
      .ok (.native ((if n.testBit 62 then "" else "-") ++ toString (n % 2 ^ 62))) :=
  toJson_native_eq n h

theorem c2_witness :
    (Amount.mk (bytes8 5)).toJson =
      .ok (.native ((if (5 : Nat).testBit 62 then "" else "-") ++ toString (5 % 2 ^ 62))) :=
  c2_amended 5 (by decide)

/-- C3: the claim says `Amount.from_value` never propagates an untyped
error, and in particular `"1e5"` either encodes or fails with the typed
codec exception.  In fact `"1e5"` passes `verify_xrp_value` (no decimal
point, value in range) and then `int("1e5")` raises an untyped
`ValueError`, which escapes to the caller. -/
theorem c3_untyped_valueerror :
    verify_xrp_value "1e5" = .ok ()
    ∧ Amount.fromValueStr "1e5" =
        .error (.valueError "invalid literal for int() with base 10: 1e5") :=
  ⟨rfl, rfl⟩

/-- C4 counterexample: the claim says encoding `"100000000000000000"`
fails with OutOfRange, labelling it `> 10^17`.  That string is exactly
10^17, the validator's comparison is strict, and encoding succeeds,
producing `10^17 ||| 2^62 = 4711686018427387904`. -/
theorem c4_counterexample :
    _serialize_xrp_amount "100000000000000000" =
      .ok (bytes8 4711686018427387904) :=
  rfl

/-- C4 amended: native encoding rejects `"1.5"` (decimal point) and `"-1"`
and `"1000000000000000000"` (10^18 > 10^17) with the codec exception,
while `"0"`, the boundary value 10^17 itself, and every unsigned digit
string with value at most 10^17 pass validation. -/
theorem c4_amended :
    verify_xrp_value "1.5" = .error (.codec "1.5 is an invalid XRP amount.")
    ∧ verify_xrp_value "-1" = .error (.codec "-1 is an invalid XRP amount.")
    ∧ verify_xrp_value "1000000000000000000" =
        .error (.codec "1000000000000000000 is an invalid XRP amount.")
    ∧ verify_xrp_value "0" = .ok ()
    ∧ ∀ s : String, s.toList ≠ [] → (∀ c ∈ s.toList, c.isDigit = true) →
        natOfDigits (s.toList.map charToDigit) ≤ 10 ^ 17 →
        verify_xrp_value s = .ok () :=
  ⟨rfl, rfl, rfl, rfl, fun s h1 h2 h3 => verify_xrp_value_digits s h1 h2 h3⟩

theorem c4_witness : verify_xrp_value "7" = .ok () :=
  c4_amended.2.2.2.2 "7" (by decide) (by decide) (by decide)

set_option maxRecDepth 100000 in
/-- C5: the claim says issued values are rendered as the shortest exact
decimal string, e.g. the value encoded from `"1e16"` as a plain digit
string.  The code renders `str(value).rstrip("0").rstrip(".")`: for the
amount encoded from `"1e16"` this yields the scientific-notation string
`"1.000000000000000E+16"`, and for `"1e15"` the trailing-zero strip
corrupts the integral rendering to `"1"`. -/
theorem c5_rendering_not_plain_decimal :
    _serialize_issued_currency_value "1e16" = .ok [216, 131, 141, 126, 164, 198, 128, 0]
    ∧ (Amount.mk ([216, 131, 141, 126, 164, 198, 128, 0] ++ List.replicate 40 0)).toJson
        = .ok (.issued "1.000000000000000E+16" (List.replicate 20 0) (List.replicate 20 0))
    ∧ _serialize_issued_currency_value "1e15" = .ok [216, 67, 141, 126, 164, 198, 128, 0]
    ∧ (Amount.mk ([216, 67, 141, 126, 164, 198, 128, 0] ++ List.replicate 40 0)).toJson
        = .ok (.issued "1" (List.replicate 20 0) (List.replicate 20 0))
    ∧ "1.000000000000000E+16" ≠ "10000000000000000" :=
  ⟨rfl, rfl, rfl, rfl, by decide⟩

set_option maxRecDepth 100000 in
/-- C6 counterexample: the claim says every issued value with more than 16
significant digits whose exponent stays within range during downscaling
serializes successfully.  The 67-digit value 10^66 (exponent 0; the
downscale loop would end at exponent 51 ≤ 80) instead raises the decimal
context's untyped Overflow inside `_verify_no_decimal`, because scaling the
67-digit coefficient exceeds the context's `Emax = 80`. -/
theorem c6_counterexample :
    16 < (natDigits (10 ^ 66)).length
    ∧ (0 : Int) + (steps (10 ^ 66) : Int) ≤ 80
    ∧ pyDecimalOfString
        "1000000000000000000000000000000000000000000000000000000000000000000"
        = some ⟨false, natDigits (10 ^ 66), 0⟩
    ∧ _serialize_issued_currency_value
        "1000000000000000000000000000000000000000000000000000000000000000000"
        = .error (.decimalOverflow "above Emax") :=
  ⟨by decide, by decide, by decide, rfl⟩

/-- C6 amended: for every issued value whose coefficient has between 17 and
65 significant digits (so the validator's context arithmetic does not
overflow), with input exponent in [-96, 80] and the downscale loop staying
within the exponent bound, serialization succeeds and the packed mantissa
is the input mantissa truncated by integer division by 10 at each step
(`m / 10 ^ steps m`, rounding toward zero), not rounded to nearest. -/
theorem c6_amended (v : String) (sgn : Bool) (m : Nat) (e : Int)
    (h1 : 10 ^ 16 ≤ m) (h2 : m < 10 ^ 65) (h3 : -96 ≤ e) (h4 : e ≤ 80)
    (h5 : e + (steps m : Int) ≤ 80) :
    serializeIouDec v ⟨sgn, natDigits m, e⟩ =
      .ok (bytes8 (packSerial sgn (m / 10 ^ steps m) (e + (steps m : Int)))) :=
  serializeIouDec_wide v sgn m e h1 h2 h3 h4 h5

theorem c6_witness :
    serializeIouDec "99999999999999999" ⟨false, natDigits 99999999999999999, 0⟩ =
      .ok (bytes8 (packSerial false (99999999999999999 / 10 ^ steps 99999999999999999)
        (0 + (steps 99999999999999999 : Int)))) :=
  c6_amended "99999999999999999" false 99999999999999999 0
    (by decide) (by decide) (by decide) (by decide) (by decide)

/-- C7 counterexample: the claim says every valid native string round-trips
through encode and decode.  `"1e6"` passes the validator (no decimal point,
value 10^6 in range), but encoding raises an untyped `ValueError` from
`int("1e6")`, so no bytes are ever produced and the round trip fails. -/
theorem c7_counterexample :
    verify_xrp_value "1e6" = .ok ()
    ∧ Amount.fromValueStr "1e6" =
        .error (.valueError "invalid literal for int() with base 10: 1e6") :=
  ⟨rfl, rfl⟩

/-- C7 amended: for every plain (unsigned, exponent-free) digit string with
value at most 10^17, encoding succeeds and decoding the produced 8 bytes
renders exactly the base-10 numeral of the string's value — a digit string
numerically equal to the input. -/
theorem c7_amended (s : String) (h1 : s.toList ≠ [])
    (h2 : ∀ c ∈ s.toList, c.isDigit = true)
    (h3 : natOfDigits (s.toList.map charToDigit) ≤ 10 ^ 17) :
    ∃ a, Amount.fromValueStr s = .ok a ∧
      a.toJson = .ok (.native (toString (natOfDigits (s.toList.map charToDigit)))) := by
  set v := natOfDigits (s.toList.map charToDigit) with hv
  have hser := serialize_xrp_digits s h1 h2 h3
  have hv62 : v < 2 ^ 62 := by
    have : (10 : ℕ) ^ 17 < 2 ^ 62 := by norm_num
    omega
  refine ⟨Amount.mk (bytes8 (2 ^ 62 + v)), ?_, ?_⟩
  · simp only [Amount.fromValueStr, hser]
    rfl
  · have hjson := toJson_native_eq (2 ^ 62 + v) (by omega)
    rw [hjson, testBit62_two_pow_add v hv62]
    have hmod : (2 ^ 62 + v) % 2 ^ 62 = v := by omega
    rw [hmod]
    rfl

theorem c7_witness :
    ∃ a, Amount.fromValueStr "42" = .ok a ∧
      a.toJson = .ok (.native (toString (natOfDigits ("42".toList.map charToDigit)))) :=
  c7_amended "42" (by decide) (by decide) (by decide)

/-- C8: every string whose exact decimal value is zero — however spelled —
serializes as an issued-currency value to the 8 bytes with only the
not-native bit (bit 63) set: both the validator and the serializer return
on `is_zero()` before any canonicalization. -/
theorem c8_zero_canonical_form (s : String) (d : PyDecimal)
    (hp : pyDecimalOfString s = some d) (hz : d.isZero = true) :
    _serialize_issued_currency_value s = .ok (bytes8 _ZERO_CURRENCY_AMOUNT_HEX) := by
  simp only [_serialize_issued_currency_value, hp, serializeIouDec, verify_iou_value, hz]
  rfl

theorem c8_witness :
    _serialize_issued_currency_value "-0" = .ok (bytes8 _ZERO_CURRENCY_AMOUNT_HEX) :=
  c8_zero_canonical_form "-0" ⟨true, [0], 0⟩ (by decide) (by decide)

/-- C9: the downscale loop fails with the typed overflow exception whenever
the mantissa is still above `10^16 - 1` while the exponent has reached 80,
and the post-loop check fails the same way for any state with exponent
above 80 or mantissa above `10^16 - 1`; both paths produce an error, never
bytes. -/
theorem c9_overflow_paths :
    (∀ (v : String) (m : Nat) (e : Int), m > _MAX_MANTISSA → e ≥ _MAX_IOU_EXPONENT →
      downscale v m e =
        .error (.codec ("Amount overflow in issued currency value " ++ v)))
    ∧ (∀ (v : String) (sgn : Bool) (m : Nat) (e : Int),
      e > _MAX_IOU_EXPONENT ∨ m > _MAX_MANTISSA →
      finishSerial v sgn m e =
        .error (.codec ("Amount overflow in issued currency value " ++ v))) := by
  constructor
  · intro v m e hm he
    rw [downscale_eq, if_pos hm, if_pos he]
  · intro v sgn m e h
    simp only [finishSerial, if_pos h]

theorem c9_witness :
    downscale "x" (10 ^ 16) 80 =
      .error (.codec ("Amount overflow in issued currency value " ++ "x"))
    ∧ finishSerial "x" false 0 81 =
      .error (.codec ("Amount overflow in issued currency value " ++ "x")) :=
  ⟨c9_overflow_paths.1 "x" (10 ^ 16) 80 (by decide) (by decide),
    c9_overflow_paths.2 "x" false 0 81 (Or.inl (by decide))⟩

/-- C10 counterexample: the claim says `is_positive` returns true for every
amount with non-negative value, in particular for the issued amount encoded
from `"0"`.  The zero encoding has bit 62 clear, so `is_positive` returns
false on it although zero is non-negative. -/
theorem c10_counterexample :
    _serialize_issued_currency_value "0" = .ok (bytes8 _ZERO_CURRENCY_AMOUNT_HEX)
    ∧ (Amount.mk (bytes8 _ZERO_CURRENCY_AMOUNT_HEX ++ List.replicate 40 0)).isPositive
        = false :=
  ⟨rfl, by decide⟩

/-- C10 amended: `is_positive` reports exactly bit 62 of the first byte.
For every nonzero packed issued value it equals the input's non-negativity
(the encoder sets bit 62 for non-negative signs), but the issued zero
encoding has bit 62 clear, so `is_positive` is false on it even though zero
is non-negative. -/
theorem c10_amended :
    (∀ (sgn : Bool) (m : Nat) (e : Int) (rest : List Nat),
      m < 2 ^ 54 → -96 ≤ e → e ≤ 80 →
      (Amount.mk (bytes8 (packSerial sgn m e) ++ rest)).isPositive = !sgn)
    ∧ ∀ rest : List Nat,
      (Amount.mk (bytes8 _ZERO_CURRENCY_AMOUNT_HEX ++ rest)).isPositive = false := by
  constructor
  · intro sgn m e rest hm he1 he2
    have hb0 := packSerial_byte0 sgn m e hm he1 he2
    have hheadD : (bytes8 (packSerial sgn m e) ++ rest).headD 0
        = (bytes8 (packSerial sgn m e)).headD 0 := by
      simp [bytes8]
    simp only [Amount.isPositive]
    rw [hheadD, hb0]
    have hq44 : (e + 97).toNat / 4 ≤ 44 := by omega
    set q := (e + 97).toNat / 4 with hqdef
    cases sgn
    · simp only [Bool.false_eq_true, if_false]
      have h3 : (128 + 64 + q) / 2 ^ 6 = 3 := by omega
      have htb : (128 + 64 + q).testBit 6 = true := by
        rw [Nat.testBit_to_div_mod, h3]
        rfl
      have hand : (128 + 64 + q) &&& 64 = 64 := by
        nth_rewrite 2 [show (64 : Nat) = 2 ^ 6 from rfl]
        rw [Nat.and_two_pow, htb]
        decide
      rw [hand]
      decide
    · simp only [if_true]
      have h2 : (128 + 0 + q) / 2 ^ 6 = 2 := by omega
      have htb : (128 + 0 + q).testBit 6 = false := by
        rw [Nat.testBit_to_div_mod, h2]
        rfl
      have hand : (128 + 0 + q) &&& 64 = 0 := by
        rw [show (64 : Nat) = 2 ^ 6 from rfl, Nat.and_two_pow, htb]
        decide
      rw [hand]
      decide
  · intro rest
    have hz8 : bytes8 _ZERO_CURRENCY_AMOUNT_HEX = [128, 0, 0, 0, 0, 0, 0, 0] := by decide
    rw [hz8]
    show decide (0 < (128 : Nat) &&& 64) = false
    decide

theorem c10_witness :
    (Amount.mk (bytes8 (packSerial false (10 ^ 15) 0) ++ [])).isPositive = !false :=
  c10_amended.1 false (10 ^ 15) 0 [] (by decide) (by decide) (by decide)
